import Mathlib

/-!
Verification development for the bot framework's platform-agnostic core:
the identity/persistence mixin (bot/utils/data.py, bot/utils/hashing.py),
the registry pattern (bot/commands/base.py, bot/storage/base.py,
bot/platforms/base.py, bot/integrations/base.py), the media-queue player
state machine (bot/media/base.py), and the orchestrator with its SQL
conversation storage (bot/main.py, bot/storage/sql/client.py).

Python values that cross the serialization boundary are modelled by the
JSON value type below; machine-level details (sqlalchemy sessions, asyncio
scheduling) are modelled by explicit state passing, with transport calls
and save-callback invocations recorded in an explicit event log.
-/

namespace BotCore

/-- JSON values, the common currency of the persistence layer: pydantic
record fields, persisted blobs and hash inputs are all dictionaries of
these.  Mirrors what json.dumps / json.loads operate on. -/
inductive JValue where
  | jnull : JValue
  | jbool : Bool → JValue
  | jnum : Int → JValue
  | jstr : String → JValue
  | jarr : List JValue → JValue
  | jobj : List (String × JValue) → JValue

/-- Python dict .get / registry lookup: first pair with the given key. -/
def alookup {α : Type} (k : String) (l : List (String × α)) : Option α :=
  (l.find? (fun kv => kv.1 == k)).map (fun kv => kv.2)

/-- Sorting of dictionary entries by key, as performed by
json.dumps(..., sort_keys=True) (Python sorted is stable; mergeSort is the
stable sort). -/
def sortPairs {α : Type} (l : List (String × α)) : List (String × α) :=
  l.mergeSort (fun a b => decide (a.1 ≤ b.1))

/-- One lowercase hexadecimal digit. -/
def hexChar (n : Nat) : Char :=
  if n < 10 then Char.ofNat (48 + n) else Char.ofNat (87 + (n % 16))

/-- Four-digit lowercase hexadecimal rendering, as used by the json \uXXXX
escapes. -/
def hex4 (n : Nat) : String :=
  String.mk [hexChar ((n >>> 12) % 16), hexChar ((n >>> 8) % 16),
             hexChar ((n >>> 4) % 16), hexChar (n % 16)]

/-- Escaping of one character inside a JSON string literal, following
json.dumps defaults (ensure_ascii=True): quote, backslash and the short
control escapes are special-cased, every other character outside the
printable ASCII range becomes a \uXXXX escape (with surrogate pairs above
the basic multilingual plane). -/
def escChar (c : Char) : String :=
  let n := c.toNat
  if c = Char.ofNat 34 then "\\\""
  else if c = Char.ofNat 92 then "\\\\"
  else if n = 8 then "\\b"
  else if n = 9 then "\\t"
  else if n = 10 then "\\n"
  else if n = 12 then "\\f"
  else if n = 13 then "\\r"
  else if n < 32 ∨ n > 126 then
    if n < 65536 then "\\u" ++ hex4 n
    else
      let m := n - 65536
      "\\u" ++ hex4 (55296 + m / 1024) ++ "\\u" ++ hex4 (56320 + m % 1024)
  else String.singleton c

/-- JSON string literal with quotes and escapes. -/
def jquote (s : String) : String :=
  "\"" ++ String.join (s.data.map escChar) ++ "\""

mutual
/-- Canonicalization of a JSON value: recursively sorts the keys of every
object.  json.dumps(v, sort_keys=True) equals the plain in-order
serialization of the canonicalized value. -/
def jsort : JValue → JValue
  | JValue.jnull => JValue.jnull
  | JValue.jbool b => JValue.jbool b
  | JValue.jnum n => JValue.jnum n
  | JValue.jstr s => JValue.jstr s
  | JValue.jarr xs => JValue.jarr (jsortList xs)
  | JValue.jobj kvs => JValue.jobj (sortPairs (jsortPairs kvs))

def jsortList : List JValue → List JValue
  | [] => []
  | x :: xs => jsort x :: jsortList xs

def jsortPairs : List (String × JValue) → List (String × JValue)
  | [] => []
  | (k, v) :: xs => (k, jsort v) :: jsortPairs xs
end

mutual
/-- In-order serialization of a JSON value with the json.dumps default
separators (", " between items, ": " after keys). -/
def jdumpRaw : JValue → String
  | JValue.jnull => "null"
  | JValue.jbool true => "true"
  | JValue.jbool false => "false"
  | JValue.jnum n => toString n
  | JValue.jstr s => jquote s
  | JValue.jarr xs => "[" ++ jdumpElems xs ++ "]"
  | JValue.jobj kvs => "\x7b" ++ jdumpPairs kvs ++ "\x7d"

def jdumpElems : List JValue → String
  | [] => ""
  | [x] => jdumpRaw x
  | x :: y :: xs => jdumpRaw x ++ ", " ++ jdumpElems (y :: xs)

def jdumpPairs : List (String × JValue) → String
  | [] => ""
  | [(k, v)] => jquote k ++ ": " ++ jdumpRaw v
  | (k, v) :: y :: xs => jquote k ++ ": " ++ jdumpRaw v ++ ", " ++ jdumpPairs (y :: xs)
end

/-- Model of json.dumps(v, sort_keys=True): serialize with every object's
keys in sorted order. -/
def jdump (v : JValue) : String :=
  jdumpRaw (jsort v)

/-- UTF-8 encoding of one character (the .encode("utf-8") step of
hashify). -/
def utf8Char (c : Char) : List Nat :=
  let n := c.toNat
  if n < 128 then [n]
  else if n < 2048 then [192 + n / 64, 128 + n % 64]
  else if n < 65536 then [224 + n / 4096, 128 + (n / 64) % 64, 128 + n % 64]
  else [240 + n / 262144, 128 + (n / 4096) % 64, 128 + (n / 64) % 64, 128 + n % 64]

/-- UTF-8 encoding of a string as a byte list. -/
def utf8Bytes (s : String) : List Nat :=
  s.data.flatMap utf8Char

/-- Truncation to a 32-bit word. -/
def w32 (n : Nat) : Nat := n % 4294967296

/-- Rotation of a 32-bit word to the right by k bits. -/
def rotr (k x : Nat) : Nat := w32 ((x >>> k) ||| (x <<< (32 - k)))

/-- The sixty-four SHA-256 round constants, written in decimal. -/
def shaK : List Nat :=
  [1116352408, 1899447441, 3049323471, 3921009573,
   961987163, 1508970993, 2453635748, 2870763221,
   3624381080, 310598401, 607225278, 1426881987,
   1925078388, 2162078206, 2614888103, 3248222580,
   3835390401, 4022224774, 264347078, 604807628,
   770255983, 1249150122, 1555081692, 1996064986,
   2554220882, 2821834349, 2952996808, 3210313671,
   3336571891, 3584528711, 113926993, 338241895,
   666307205, 773529912, 1294757372, 1396182291,
   1695183700, 1986661051, 2177026350, 2456956037,
   2730485921, 2820302411, 3259730800, 3345764771,
   3516065817, 3600352804, 4094571909, 275423344,
   430227734, 506948616, 659060556, 883997877,
   958139571, 1322822218, 1537002063, 1747873779,
   1955562222, 2024104815, 2227730452, 2361852424,
   2428436474, 2756734187, 3204031479, 3329325298]

/-- The eight initial SHA-256 hash words, written in decimal. -/
def shaH0 : List Nat :=
  [1779033703, 3144134277, 1013904242, 2773480762,
   1359893119, 2600822924, 528734635, 1541459225]

/-- SHA-256 message padding: append 0x80, zero bytes up to 56 mod 64, then
the bit length as eight big-endian bytes. -/
def shaPad (msg : List Nat) : List Nat :=
  let len := msg.length
  let k := (119 - len % 64) % 64
  let bitlen := 8 * len
  msg ++ [128] ++ List.replicate k 0 ++
    [(bitlen >>> 56) % 256, (bitlen >>> 48) % 256, (bitlen >>> 40) % 256,
     (bitlen >>> 32) % 256, (bitlen >>> 24) % 256, (bitlen >>> 16) % 256,
     (bitlen >>> 8) % 256, bitlen % 256]

/-- Splits a byte list into 64-byte blocks. -/
def toBlocks (l : List Nat) : List (List Nat) :=
  if h : l = [] then []
  else
    have : (List.drop 64 l).length < l.length := by
      have hl : 0 < l.length := List.length_pos.mpr h
      simp only [List.length_drop]
      omega
    l.take 64 :: toBlocks (l.drop 64)
termination_by l.length

/-- Big-endian 32-bit words of one 64-byte block. -/
def blockWords (b : List Nat) : List Nat :=
  (List.range 16).map fun i =>
    (b.getD (4 * i) 0) * 16777216 + (b.getD (4 * i + 1) 0) * 65536 +
      (b.getD (4 * i + 2) 0) * 256 + b.getD (4 * i + 3) 0

/-- SHA-256 message schedule: extends the 16 block words to 64. -/
def shaSchedule (b : List Nat) : List Nat :=
  (List.range 48).foldl
    (fun ws i =>
      let t := i + 16
      let x := ws.getD (t - 15) 0
      let y := ws.getD (t - 2) 0
      let s0 := (rotr 7 x) ^^^ (rotr 18 x) ^^^ (x >>> 3)
      let s1 := (rotr 17 y) ^^^ (rotr 19 y) ^^^ (y >>> 10)
      ws ++ [w32 (ws.getD (t - 16) 0 + s0 + ws.getD (t - 7) 0 + s1)])
    (blockWords b)

/-- One round of the SHA-256 compression function. -/
def shaRound (st : List Nat) (kw : Nat × Nat) : List Nat :=
  let a := st.getD 0 0
  let b := st.getD 1 0
  let c := st.getD 2 0
  let d := st.getD 3 0
  let e := st.getD 4 0
  let f := st.getD 5 0
  let g := st.getD 6 0
  let h := st.getD 7 0
  let s1 := (rotr 6 e) ^^^ (rotr 11 e) ^^^ (rotr 25 e)
  let ch := (e &&& f) ^^^ ((4294967295 - e) &&& g)
  let t1 := w32 (h + s1 + ch + kw.1 + kw.2)
  let s0 := (rotr 2 a) ^^^ (rotr 13 a) ^^^ (rotr 22 a)
  let mj := (a &&& b) ^^^ (a &&& c) ^^^ (b &&& c)
  let t2 := w32 (s0 + mj)
  [w32 (t1 + t2), a, b, c, w32 (d + t1), e, f, g]

/-- SHA-256 compression of one block into the running hash state. -/
def shaBlock (st : List Nat) (b : List Nat) : List Nat :=
  let ws := shaSchedule b
  let st' := (shaK.zip ws |>.map fun p => (p.1, p.2)).foldl
    (fun acc kw => shaRound acc kw) st
  (st.zip st').map fun p => w32 (p.1 + p.2)

/-- SHA-256 digest of a byte list, as eight 32-bit words. -/
def sha256Words (msg : List Nat) : List Nat :=
  (toBlocks (shaPad msg)).foldl shaBlock shaH0

/-- Lowercase hexadecimal rendering of one 32-bit word. -/
def hex8 (n : Nat) : String :=
  hex4 (n >>> 16) ++ hex4 (n % 65536)

/-- Model of hashlib.sha256(text.encode("utf-8")).hexdigest(). -/
def sha256hex (s : String) : String :=
  String.join ((sha256Words (utf8Bytes s)).map hex8)

/-- Model of bot/utils/hashing.py hashify on a dictionary: serializes the
dictionary with json.dumps(..., sort_keys=True) and hashes the UTF-8
encoding with SHA-256, returning the lowercase hex digest. -/
def hashify (d : List (String × JValue)) : String :=
  sha256hex (jdump (JValue.jobj d))

/-- One pydantic field of a Data record: its name, current value, and the
hash=True / persist=True markers from Field(...).  Field declaration order
is the list order of the record. -/
structure DField where
  name : String
  value : JValue
  hashFlag : Bool
  persistFlag : Bool

/-- Model of bot/utils/data.py Data: a pydantic model whose fields may be
annotated hash=True and/or persist=True, in declaration order. -/
structure Data where
  fields : List DField

/-- Model of pydantic BaseModel.dict(): all fields as a dictionary in
declaration order. -/
def Data.dict (r : Data) : List (String × JValue) :=
  r.fields.map fun f => (f.name, f.value)

/-- The names of all fields annotated persist=True
(Data.persist_field_names in the source; iteration order is irrelevant to
every use, so the set is modelled as the declaration-ordered list). -/
def Data.persist_field_names (r : Data) : List String :=
  (r.fields.filter fun f => f.persistFlag).map fun f => f.name

/-- The names of all fields annotated hash=True (Data.hash_field_names). -/
def Data.hash_field_names (r : Data) : List String :=
  (r.fields.filter fun f => f.hashFlag).map fun f => f.name

/-- Model of self.dict(include=self.persist_field_names()): the dictionary
restricted to persist=True fields. -/
def Data.persistPairs (r : Data) : List (String × JValue) :=
  (r.fields.filter fun f => f.persistFlag).map fun f => (f.name, f.value)

/-- Model of self.dict(include=self.hash_field_names()): the dictionary
restricted to hash=True fields. -/
def Data.hashPairs (r : Data) : List (String × JValue) :=
  (r.fields.filter fun f => f.hashFlag).map fun f => (f.name, f.value)

/-- Model of Data.hash: hashify over exactly the hash=True fields. -/
def Data.hash (r : Data) : String :=
  hashify r.hashPairs

/-- Model of Data.persist_str: self.json(include=persist_field_names,
sort_keys=True), the JSON text of the persist=True fields. -/
def Data.persist_str (r : Data) : String :=
  jdump (JValue.jobj r.persistPairs)

/-- Model of getattr(r, name) for a Data record. -/
def Data.getattr (r : Data) (name : String) : Option JValue :=
  (r.fields.find? fun f => f.name == name).map fun f => f.value

/-- Python dict.update semantics: values of existing keys are replaced in
place, keys not yet present are appended in their order in the update. -/
def dictUpdate (d u : List (String × JValue)) : List (String × JValue) :=
  (d.map fun kv =>
    match alookup kv.1 u with
    | some v => (kv.1, v)
    | none => kv) ++
    u.filter fun kv => (alookup kv.1 d).isNone

/-- Model of self.parse_obj(d): rebuilds a record with the same field
schema, each field taking its value from the dictionary by name (every use
passes a dictionary containing all field names; a missing name keeps the
field's value, standing in for the pydantic default). -/
def Data.parse_obj (r : Data) (d : List (String × JValue)) : Data :=
  ⟨r.fields.map fun f => { f with value := (alookup f.name d).getD f.value }⟩

/-- Model of Data.update: copies every persist=True field of other onto
self (setattr per persist field name; an absent attribute keeps the value,
unreachable when both records share a schema). -/
def Data.update (r other : Data) : Data :=
  ⟨r.fields.map fun f =>
    if f.persistFlag then { f with value := (other.getattr f.name).getD f.value } else f⟩

/-- Model of Data.update_from_persist_str.  The source parses the blob
text with json.loads and merges it over self.dict(); the blob argument
here is the dictionary that JSON text denotes (json.loads of the stored
text), so the merge logic is modelled exactly while text parsing stays at
the value level. -/
def Data.update_from_persist_str (r : Data) (blob : List (String × JValue)) : Data :=
  r.update (r.parse_obj (dictUpdate r.dict blob))

/-- Model of bot/media/base.py Media: url, title, optional duration
(timedelta modelled in whole seconds). -/
structure Media where
  url : String
  title : String
  duration : Option Nat
deriving DecidableEq

/-- Observable effects of the media player: calls into the transport
(MediaPlayerContext.play / MediaPlayerContext.stop, delegating to the
platform's play_audio / stop_audio) and invocations of the save
callback. -/
inductive MPEvent where
  | ctxPlay : Media → MPEvent
  | ctxStop : MPEvent
  | save : MPEvent
deriving DecidableEq

/-- State of one MediaPlayer together with its transport: the
MediaPlayerData record (queue, elapsed seconds), the poll-task handle
(present or None), the transport's audio state as reported by
is_playing / is_connected, and the log of emitted effects. -/
structure MediaPlayer where
  queue : List Media
  elapsed : Nat
  poll_task : Bool
  ctxPlaying : Bool
  ctxConnected : Bool
  events : List MPEvent

/-- Model of MediaPlayer.play: no-op if the transport is already playing
or the queue is empty, otherwise starts streaming the queue head, spawns
the poll task and saves. -/
def MediaPlayer.play (s : MediaPlayer) : MediaPlayer :=
  if s.ctxPlaying then s
  else
    match s.queue with
    | [] => s
    | m :: _ =>
      let s := { s with ctxPlaying := true, events := s.events ++ [MPEvent.ctxPlay m] }
      let s := { s with poll_task := true }
      { s with events := s.events ++ [MPEvent.save] }

/-- Model of MediaPlayer.stop: no-op if the transport reports nothing
playing; otherwise reads queue[0] (an IndexError, hence none, if the queue
is empty while playing), cancels and clears the poll task, resets elapsed
to zero, stops the transport and saves. -/
def MediaPlayer.stop (s : MediaPlayer) : Option MediaPlayer :=
  if !s.ctxPlaying then some s
  else
    match s.queue with
    | [] => none
    | _ :: _ =>
      let s := { s with poll_task := false }
      let s := { s with elapsed := 0 }
      let s := { s with ctxPlaying := false, events := s.events ++ [MPEvent.ctxStop] }
      some { s with events := s.events ++ [MPEvent.save] }

/-- Model of MediaPlayer.next: stop the current song if any, then (the
queue still holds the old head here) drop the head, play again and
save. -/
def MediaPlayer.next (s : MediaPlayer) : Option MediaPlayer := do
  let s ← s.stop
  match s.queue with
  | [] => some s
  | _ :: rest =>
    let s := { s with queue := rest }
    let s := s.play
    some { s with events := s.events ++ [MPEvent.save] }

/-- Model of MediaPlayer.enqueue: appends to the end of the queue,
auto-plays when the appended item is the only item, then saves. -/
def MediaPlayer.enqueue (s : MediaPlayer) (m : Media) : MediaPlayer :=
  let s := { s with queue := s.queue ++ [m] }
  let s := if s.queue.length = 1 then s.play else s
  { s with events := s.events ++ [MPEvent.save] }

/-- Python sequence indexing: a negative index counts from the end; an
index out of range is an IndexError, hence none. -/
def pyGet {α : Type} (l : List α) (i : Int) : Option α :=
  let j := if i < 0 then i + l.length else i
  if j < 0 then none else l.get? j.toNat

/-- Python list.pop(i) removal at an index (called only after a successful
read at the same index, so the index is in range). -/
def pyRemoveAt {α : Type} (l : List α) (i : Int) : List α :=
  let j := if i < 0 then i + l.length else i
  if j < 0 then l else l.eraseIdx j.toNat

/-- Model of MediaPlayer.pop: reads queue[index] (IndexError, hence none,
when out of range), then either advances via next (index 0) or splices the
item out directly, saves, and returns the removed item. -/
def MediaPlayer.pop (s : MediaPlayer) (index : Int) : Option (Media × MediaPlayer) := do
  let to_return ← pyGet s.queue index
  let s ←
    if index = 0 then s.next
    else some { s with queue := pyRemoveAt s.queue index }
  some (to_return, { s with events := s.events ++ [MPEvent.save] })

/-- Model of MediaPlayer.clear: stop, then empty the queue and save. -/
def MediaPlayer.clear (s : MediaPlayer) : Option MediaPlayer := do
  let s ← s.stop
  let s := { s with queue := [] }
  some { s with events := s.events ++ [MPEvent.save] }

/-- Model of the MediaPlayer.poll reconciliation loop.  The schedule lists
the (is_playing, is_connected) answers the transport gives on successive
iterations; each iteration records the observed transport state, sleeps
one second and adds that second to elapsed (also on the terminating
iteration, since the source increments after reading).  On the first
reading where both are no longer true the loop clears the poll-task
handle, then a disconnect triggers stop() and a finished song triggers
next().  An empty remaining schedule means the loop was never observed to
terminate, hence none. -/
def MediaPlayer.poll (s : MediaPlayer) : List (Bool × Bool) → Option MediaPlayer
  | [] => none
  | (is_playing, is_connected) :: rest =>
    let s := { s with ctxPlaying := is_playing, ctxConnected := is_connected }
    let s := { s with elapsed := s.elapsed + 1 }
    if is_playing && is_connected then s.poll rest
    else
      let s := { s with poll_task := false }
      if !is_connected then s.stop
      else s.next

/-- Model of the uniform __init_subclass__ registration logic shared by
Command, Platform, Storage and Integration base classes: at class
definition (import) time, assert the subclass declares a name, assert the
name is not yet registered, and record the class in the registry.  No
instance is constructed here; construction happens separately via
registry[name](**kwargs). -/
def register {α : Type} (registry : List (String × α)) (name : Option String)
    (cls : α) : Except String (List (String × α)) :=
  match name with
  | none => Except.error "name unset"
  | some n =>
    match alookup n registry with
    | some _ => Except.error (n ++ " already registered")
    | none => Except.ok (registry ++ [(n, cls)])

/-- Importing a sequence of class definitions: each definition registers
itself in turn; the first failing registration aborts the import. -/
def registerAll {α : Type} (registry : List (String × α))
    (classes : List (String × α)) : Except String (List (String × α)) :=
  classes.foldlM (fun reg c => register reg (some c.1) c.2) registry

/-- Result of one Command.process_message call: either a returned
Optional[bool] together with the command's data after the in-place
mutation, or a raised exception carrying its rendered text. -/
inductive ProcResult where
  | ok : Option Bool → JValue → ProcResult
  | exc : String → ProcResult

/-- Python truthiness of the Optional[bool] returned by process_message:
only True is truthy; False and None are falsy. -/
def truthy : Option Bool → Bool
  | some true => true
  | _ => false

/-- One registered Command variant: the default CommandData produced by
construction (modelled by its dictionary value), the Integration names
derived from the process_message parameter type hints, and the
process_message behaviour as a function of the message and the current
command data. -/
structure CommandSpec where
  defaultData : JValue
  requires : List String
  process : String → JValue → ProcResult

/-- The Command registry, name to class. -/
abbrev CommandRegistry : Type := List (String × CommandSpec)

/-- Model of one row of the conversations table
(bot/storage/sql/models.py): row key, command name, command data and
persisted context data.  The two data columns hold JSON text written with
sort_keys=True; they are modelled by the values that text denotes, which
is why the canonicalization jsort / canonPairs appears where the source
serializes. -/
structure Conversation where
  hash : String
  command_name : String
  command_data : JValue
  context_data : List (String × JValue)

/-- The conversations table. -/
abbrev ConversationTable : Type := List Conversation

/-- The value denoted by the JSON text of a persist_str dictionary:
dumping sorts keys recursively, so loading back yields the canonicalized
pairs. -/
def canonPairs (d : List (String × JValue)) : List (String × JValue) :=
  sortPairs (jsortPairs d)

/-- Model of Storage.load_conversation (bot/storage/sql/client.py): query
the row by context.data.hash(); when absent return None; when present
construct the stored command via Command.get_command (an assertion error
when the stored name is not registered), give it the stored command data,
and update the context record in place from the stored persisted context
fields.  Returns the optional (command name, command data) and the
possibly updated context record. -/
def load_conversation (reg : CommandRegistry) (t : ConversationTable)
    (context : Data) : Except String (Option (String × CommandSpec × JValue) × Data) :=
  match t.find? (fun row => row.hash == context.hash) with
  | none => Except.ok (none, context)
  | some row =>
    match alookup row.command_name reg with
    | none => Except.error ("command not found: " ++ row.command_name)
    | some spec =>
      Except.ok (some (row.command_name, spec, row.command_data),
        context.update_from_persist_str row.context_data)

/-- Model of Storage.save_conversation: upsert by context.data.hash().  A
missing row is inserted with the command name; an existing row has only
its command_data and context_data columns overwritten (the stored
command_name stays).  The serialized columns are written with
sort_keys=True, hence the canonicalized values. -/
def save_conversation (t : ConversationTable) (context : Data)
    (name : String) (data : JValue) : ConversationTable :=
  let h := context.hash
  match t.find? (fun row => row.hash == h) with
  | none => t ++ [⟨h, name, jsort data, canonPairs context.persistPairs⟩]
  | some _ =>
    t.map fun row =>
      if row.hash == h then
        { row with command_data := jsort data, context_data := canonPairs context.persistPairs }
      else row

/-- Model of Storage.delete_conversation: query the row by
context.data.hash(); when absent do nothing (deleting a nonexistent row is
not an error), otherwise delete it. -/
def delete_conversation (t : ConversationTable) (context : Data) : ConversationTable :=
  match t.find? (fun row => row.hash == context.hash) with
  | none => t
  | some _ => t.eraseP (fun row => row.hash == context.hash)

/-- Python str.isspace for the characters str.split treats as
separators. -/
def isPySpace (c : Char) : Bool :=
  c = ' ' ∨ c = '\t' ∨ c = '\n' ∨ c = '\r' ∨ c = '\x0b' ∨ c = '\x0c'

/-- Python str.split() with no separator: splits on whitespace runs,
discarding empty words.  The accumulator carries the current word in
reverse. -/
def splitWordsAux : List Char → List Char → List (List Char)
  | [], cur => if cur.isEmpty then [] else [cur.reverse]
  | c :: cs, cur =>
    if isPySpace c then
      if cur.isEmpty then splitWordsAux cs []
      else cur.reverse :: splitWordsAux cs []
    else splitWordsAux cs (c :: cur)

/-- Model of bot/utils/splitting.py split: Python str.split() on
whitespace runs, returning the first token and the rest re-joined with
single spaces; a message with no token is an IndexError at parts[0], hence
none. -/
def split (msg : String) : Option (String × String) :=
  match (splitWordsAux msg.data []).map String.mk with
  | [] => none
  | w :: ws => some (w, String.intercalate " " ws)

/-- Model of Bot.get_command: load the conversation for the context; when
none is stored, parse the first whitespace token of the message as the
command name (IndexError on an empty message), resolve it in the Command
registry (assertion error when unregistered) and construct the command
with default data. -/
def get_command (reg : CommandRegistry) (t : ConversationTable)
    (message : String) (context : Data) :
    Except String (String × CommandSpec × JValue × Data) :=
  match load_conversation reg t context with
  | Except.error e => Except.error e
  | Except.ok (some (name, spec, data), ctx) => Except.ok (name, spec, data, ctx)
  | Except.ok (none, ctx) =>
    match split message with
    | none => Except.error "list index out of range"
    | some (tok, _) =>
      match alookup tok reg with
      | none => Except.error ("command not found: " ++ tok)
      | some spec => Except.ok (tok, spec, spec.defaultData, ctx)

/-- Model of Bot.inject_integrations: for every parameter whose declared
type is an Integration subtype, look the provider up in the bot's
integrations map and assert it is present; the first missing provider
raises "cannot inject integration: name". -/
def inject_integrations (integrations : List String) (requires : List String) :
    Except String Unit :=
  match requires.find? (fun n => !(integrations.contains n)) with
  | some n => Except.error ("cannot inject integration: " ++ n)
  | none => Except.ok ()

/-- Outcome of Bot.process_message: the conversations table afterwards and
the responses sent through the context back to the user. -/
structure MsgResult where
  table : ConversationTable
  responses : List String

/-- The diagnostic response sent from the orchestrator's error boundary:
the captured traceback text wrapped in code-block markers. -/
def format_error (e : String) : String :=
  "\x7bcb\x7d" ++ e ++ "\x7bcb\x7d"

/-- Model of Bot.process_message: resolve the command (stored conversation
or first message token), inject the required integrations, run
process_message, then persist the conversation when the returned value is
truthy and delete it otherwise.  Any exception raised along the way is
caught: the rendered error text is sent as the response and the
conversation row for the context (as mutated so far) is deleted; nothing
propagates out of the handler. -/
def process_message (reg : CommandRegistry) (integrations : List String)
    (t : ConversationTable) (message : String) (command_data : Data) : MsgResult :=
  match get_command reg t message command_data with
  | Except.error e =>
    ⟨delete_conversation t command_data, [format_error e]⟩
  | Except.ok (name, spec, data, ctx) =>
    match inject_integrations integrations spec.requires with
    | Except.error e => ⟨delete_conversation t ctx, [format_error e]⟩
    | Except.ok _ =>
      match spec.process message data with
      | ProcResult.exc e => ⟨delete_conversation t ctx, [format_error e]⟩
      | ProcResult.ok cont data' =>
        if truthy cont then ⟨save_conversation t ctx name data', []⟩
        else ⟨delete_conversation t ctx, []⟩

/-- One component entry of the parsed configuration file: the registry
name under which the backend class is looked up (constructor kwargs are
not modelled). -/
structure ComponentConfig where
  name : String

/-- Model of bot/config.py Configuration as consumed by
Bot.create_from_configuration: one storage, one platform, a list of
integrations. -/
structure Configuration where
  storage : ComponentConfig
  platform : ComponentConfig
  integrations : List ComponentConfig

/-- Model of Bot.create_from_configuration: instantiate the storage,
platform and integration backends named by the configuration from their
registries (a name absent from its registry is a KeyError), then assemble
the Bot, whose integrations map is keyed by the instantiated integration
names.  Nothing here inspects the Command registry or any command's
required integrations.  Returns the names of the bot's integrations. -/
def create_from_configuration (storageReg platformReg integrationReg : List String)
    (cfg : Configuration) : Except String (List String) :=
  if !(storageReg.contains cfg.storage.name) then
    Except.error ("KeyError: " ++ cfg.storage.name)
  else if !(platformReg.contains cfg.platform.name) then
    Except.error ("KeyError: " ++ cfg.platform.name)
  else
    match cfg.integrations.find? (fun i => !(integrationReg.contains i.name)) with
    | some i => Except.error ("KeyError: " ++ i.name)
    | none => Except.ok (cfg.integrations.map fun i => i.name)

/-! Concrete inputs used by the witness theorems. -/

/-- A concrete media item. -/
def wMedia1 : Media := ⟨"https://example.com/a.mp3", "a", none⟩

/-- A second concrete media item. -/
def wMedia2 : Media := ⟨"https://example.com/b.mp3", "b", some 90⟩

/-- A playing player with a two-item queue and nonzero elapsed time. -/
def wPlaying2 : MediaPlayer := ⟨[wMedia1, wMedia2], 5, true, true, true, []⟩

/-- A playing player with a one-item queue. -/
def wPlaying1 : MediaPlayer := ⟨[wMedia1], 4, true, true, true, []⟩

/-- An idle player with an empty queue and an idle transport. -/
def wIdle : MediaPlayer := ⟨[], 0, false, false, true, []⟩

/-- C3: if the transport reports (isPlaying, isConnected) = (true, true)
at every poll and (true, false) at poll N, the loop terminates at poll N
and the player is fully stopped: the poll-task handle is cleared, elapsed
is reset to zero, the transport's stop is called (the ctxStop event, with
the transport left not playing), and the queue is untouched. -/
theorem C3_disconnect_teardown (s : MediaPlayer) (n : Nat) (m : Media) (q : List Media)
    (hq : s.queue = m :: q) :
    s.poll (List.replicate n (true, true) ++ [(true, false)]) =
      some ⟨m :: q, 0, false, false, false, s.events ++ [MPEvent.ctxStop, MPEvent.save]⟩ := by
  induction n generalizing s with
  | zero =>
    simp only [List.replicate, List.nil_append]
    rw [MediaPlayer.poll]
    simp [MediaPlayer.stop, hq]
  | succ k ih =>
    rw [List.replicate_succ, List.cons_append, MediaPlayer.poll]
    simp only [Bool.and_self, if_pos]
    exact ih _ hq

/-- Witness for C3 at a concrete playing player: two healthy polls, then a
disconnected poll. -/
theorem C3_disconnect_teardown_witness :
    wPlaying2.queue = wMedia1 :: [wMedia2] ∧
      wPlaying2.poll (List.replicate 2 (true, true) ++ [(true, false)]) =
        some ⟨[wMedia1, wMedia2], 0, false, false, false, [MPEvent.ctxStop, MPEvent.save]⟩ :=
  ⟨rfl, C3_disconnect_teardown wPlaying2 2 wMedia1 [wMedia2] rfl⟩

/-- C10: when the loop ends because the transport is connected but no
longer playing (natural end of track), next() runs, its inner stop()
returns immediately (no ctxStop event, elapsed not reset), the head is
dropped and the next item starts playing with the accumulated elapsed
value carried over, including the one-second increment of the terminating
poll. -/
theorem C10_natural_end_elapsed_carryover (s : MediaPlayer) (n : Nat) (m0 m1 : Media)
    (q : List Media) (hq : s.queue = m0 :: m1 :: q) :
    s.poll (List.replicate n (true, true) ++ [(false, true)]) =
      some ⟨m1 :: q, s.elapsed + n + 1, true, true, true,
        s.events ++ [MPEvent.ctxPlay m1, MPEvent.save, MPEvent.save]⟩ := by
  induction n generalizing s with
  | zero =>
    simp only [List.replicate, List.nil_append]
    rw [MediaPlayer.poll]
    simp [MediaPlayer.next, MediaPlayer.stop, MediaPlayer.play, hq]
  | succ k ih =>
    rw [List.replicate_succ, List.cons_append, MediaPlayer.poll]
    simp only [Bool.and_self, if_pos]
    rw [ih { s with ctxPlaying := true, ctxConnected := true, elapsed := s.elapsed + 1 } hq]
    congr 2
    show s.elapsed + 1 + k + 1 = s.elapsed + (k + 1) + 1
    omega

/-- Witness for C10 at a concrete playing player: two healthy polls, then
a song-finished poll; elapsed ends at 5 + 2 + 1 = 8, not zero. -/
theorem C10_natural_end_elapsed_carryover_witness :
    wPlaying2.queue = wMedia1 :: wMedia2 :: [] ∧
      wPlaying2.poll (List.replicate 2 (true, true) ++ [(false, true)]) =
        some ⟨[wMedia2], 8, true, true, true,
          [MPEvent.ctxPlay wMedia2, MPEvent.save, MPEvent.save]⟩ :=
  ⟨rfl, C10_natural_end_elapsed_carryover wPlaying2 2 wMedia1 wMedia2 [] rfl⟩

/-- C4: enqueue into an empty queue on a player whose transport reports
nothing playing transitions the player to Playing and calls the
transport's play exactly once with the enqueued item (the single ctxPlay
event), while enqueue onto a non-empty queue appends at the end and emits
no transport call; both paths invoke the save callback afterwards (the
trailing save event). -/
theorem C4_enqueue_autoplay (s : MediaPlayer) (m : Media) :
    (s.queue = [] → s.ctxPlaying = false →
      s.enqueue m = ⟨[m], s.elapsed, true, true, s.ctxConnected,
        s.events ++ [MPEvent.ctxPlay m, MPEvent.save, MPEvent.save]⟩) ∧
    (∀ q0 qs, s.queue = q0 :: qs →
      s.enqueue m = ⟨q0 :: (qs ++ [m]), s.elapsed, s.poll_task, s.ctxPlaying, s.ctxConnected,
        s.events ++ [MPEvent.save]⟩) := by
  constructor
  · intro hq hp
    simp [MediaPlayer.enqueue, MediaPlayer.play, hq, hp]
  · intro q0 qs hq
    simp [MediaPlayer.enqueue, MediaPlayer.play, hq]

/-- Witness for C4: enqueue into the idle empty player starts it playing
that item; a second enqueue only appends and saves. -/
theorem C4_enqueue_autoplay_witness :
    wIdle.queue = [] ∧ wIdle.ctxPlaying = false ∧
      wIdle.enqueue wMedia1 = ⟨[wMedia1], 0, true, true, true,
        [MPEvent.ctxPlay wMedia1, MPEvent.save, MPEvent.save]⟩ ∧
      (wIdle.enqueue wMedia1).enqueue wMedia2 = ⟨[wMedia1, wMedia2], 0, true, true, true,
        [MPEvent.ctxPlay wMedia1, MPEvent.save, MPEvent.save, MPEvent.save]⟩ :=
  ⟨rfl, rfl, (C4_enqueue_autoplay wIdle wMedia1).1 rfl rfl,
    (C4_enqueue_autoplay (wIdle.enqueue wMedia1) wMedia2).2 wMedia1 [] (by decide)⟩

/-- C7: pop(index) on a playing player returns the item that stood at that
queue position; pop(0) stops the current item, drops the head and starts
playing the former second item when there is one (or leaves the player
stopped otherwise); pop(index) for index above zero splices the item out
without touching playback, the head and transport state unchanged; every
path ends with the save callback. -/
theorem C7_pop_semantics (s : MediaPlayer) (m0 : Media) (rest : List Media)
    (hq : s.queue = m0 :: rest) (hp : s.ctxPlaying = true) :
    (∀ r0 rs, rest = r0 :: rs →
      s.pop 0 = some (m0, ⟨r0 :: rs, 0, true, true, s.ctxConnected,
        s.events ++ [MPEvent.ctxStop, MPEvent.save, MPEvent.ctxPlay r0, MPEvent.save,
          MPEvent.save, MPEvent.save]⟩)) ∧
    (rest = [] →
      s.pop 0 = some (m0, ⟨[], 0, false, false, s.ctxConnected,
        s.events ++ [MPEvent.ctxStop, MPEvent.save, MPEvent.save, MPEvent.save]⟩)) ∧
    (∀ (i : Nat) (h : i < rest.length),
      s.pop (Int.ofNat (i + 1)) = some (rest.get ⟨i, h⟩,
        ⟨m0 :: rest.eraseIdx i, s.elapsed, s.poll_task, s.ctxPlaying, s.ctxConnected,
          s.events ++ [MPEvent.save]⟩)) := by
  refine ⟨?_, ?_, ?_⟩
  · intro r0 rs hr
    subst hr
    simp [MediaPlayer.pop, MediaPlayer.next, MediaPlayer.stop, MediaPlayer.play,
      pyGet, hq, hp]
  · intro hr
    subst hr
    simp [MediaPlayer.pop, MediaPlayer.next, MediaPlayer.stop, MediaPlayer.play,
      pyGet, hq, hp]
  · intro i h
    have h1 : Int.ofNat (i + 1) ≠ 0 := by
      rw [Int.ofNat_eq_natCast]
      exact_mod_cast Nat.succ_ne_zero i
    have h0 : ¬(Int.ofNat (i + 1) < 0) := Int.not_lt.mpr (Int.ofNat_nonneg (i + 1))
    have h2 : (Int.ofNat (i + 1)).toNat = i + 1 := rfl
    simp only [MediaPlayer.pop, pyGet, pyRemoveAt, hq, List.length_cons, h0, if_neg, h1, h2,
      ite_false, List.getElem?_cons_succ, List.getElem?_eq_getElem h, Option.bind_some,
      List.eraseIdx_cons_succ]
    simp [List.get?_cons_succ, List.get?_eq_get h, List.getElem?_eq_getElem h]

/-- Witness for C7: pop(0) on a playing two-item queue removes the former
head and plays the former second item; pop(1) removes the second item and
leaves the playing head alone; pop(0) on a one-item queue stops the
player. -/
theorem C7_pop_semantics_witness :
    wPlaying2.queue = wMedia1 :: [wMedia2] ∧ wPlaying2.ctxPlaying = true ∧
      wPlaying2.pop 0 = some (wMedia1, ⟨[wMedia2], 0, true, true, true,
        [MPEvent.ctxStop, MPEvent.save, MPEvent.ctxPlay wMedia2, MPEvent.save,
          MPEvent.save, MPEvent.save]⟩) ∧
      wPlaying2.pop (Int.ofNat 1) = some (wMedia2, ⟨[wMedia1], 5, true, true, true,
        [MPEvent.save]⟩) ∧
      wPlaying1.pop 0 = some (wMedia1, ⟨[], 0, false, false, true,
        [MPEvent.ctxStop, MPEvent.save, MPEvent.save, MPEvent.save]⟩) :=
  ⟨rfl, rfl,
    (C7_pop_semantics wPlaying2 wMedia1 [wMedia2] rfl rfl).1 wMedia2 [] rfl,
    (C7_pop_semantics wPlaying2 wMedia1 [wMedia2] rfl rfl).2.2 0 (by decide),
    (C7_pop_semantics wPlaying1 wMedia1 [] rfl rfl).2.1 rfl⟩


theorem pairLE_trans {α : Type} : ∀ (a b c : String × α),
    decide (a.1 ≤ b.1) → decide (b.1 ≤ c.1) → decide (a.1 ≤ c.1) := by
  intro a b c hab hbc
  simp only [decide_eq_true_eq] at *
  exact le_trans hab hbc

theorem pairLE_total {α : Type} : ∀ (a b : String × α),
    (decide (a.1 ≤ b.1) || decide (b.1 ≤ a.1)) = true := by
  intro a b
  simpa using le_total a.1 b.1

theorem sortPairs_idem {α : Type} (l : List (String × α)) :
    sortPairs (sortPairs l) = sortPairs l := by
  unfold sortPairs
  exact List.mergeSort_of_sorted (List.sorted_mergeSort pairLE_trans pairLE_total l)

theorem sortPairs_perm_eq {α : Type} {l1 l2 : List (String × α)} (hp : l1.Perm l2)
    (hn : (l1.map Prod.fst).Nodup) : sortPairs l1 = sortPairs l2 := by
  have hs1 := @List.sorted_mergeSort (String × α) (fun a b => decide (a.1 ≤ b.1))
    pairLE_trans pairLE_total l1
  have hs2 := @List.sorted_mergeSort (String × α) (fun a b => decide (a.1 ≤ b.1))
    pairLE_trans pairLE_total l2
  have hperm : (sortPairs l1).Perm (sortPairs l2) :=
    ((List.mergeSort_perm l1 _).trans hp).trans (List.mergeSort_perm l2 _).symm
  have hn1 : ((sortPairs l1).map Prod.fst).Nodup :=
    (((List.mergeSort_perm l1 _).map Prod.fst).nodup_iff).mpr hn
  have hn2 : ((sortPairs l2).map Prod.fst).Nodup :=
    (((List.mergeSort_perm l2 _).map Prod.fst).nodup_iff).mpr (hp.map Prod.fst |>.nodup hn)
  have hlt1 : (sortPairs l1).Pairwise (fun a b => a.1 < b.1) := by
    have hne := (List.pairwise_map.mp hn1)
    exact (hs1.and hne).imp fun h => lt_of_le_of_ne (by simpa using h.1) h.2
  have hlt2 : (sortPairs l2).Pairwise (fun a b => a.1 < b.1) := by
    have hne := (List.pairwise_map.mp hn2)
    exact (hs2.and hne).imp fun h => lt_of_le_of_ne (by simpa using h.1) h.2
  haveI : IsAntisymm (String × α) (fun a b => a.1 < b.1) :=
    ⟨fun a b h1 h2 => (lt_asymm h1 h2).elim⟩
  exact List.eq_of_perm_of_sorted hperm hlt1 hlt2

theorem jsortPairs_eq_map : ∀ (l : List (String × JValue)),
    jsortPairs l = l.map fun kv => (kv.1, jsort kv.2)
  | [] => rfl
  | (k, v) :: xs => by rw [jsortPairs, jsortPairs_eq_map xs]; rfl

theorem sortPairs_jsortPairs_comm (l : List (String × JValue)) :
    jsortPairs (sortPairs l) = sortPairs (jsortPairs l) := by
  rw [jsortPairs_eq_map, jsortPairs_eq_map]
  unfold sortPairs
  exact List.map_mergeSort fun a _ b _ => rfl

mutual
theorem jsort_idem : (v : JValue) → jsort (jsort v) = jsort v
  | JValue.jnull => rfl
  | JValue.jbool b => rfl
  | JValue.jnum n => rfl
  | JValue.jstr s => rfl
  | JValue.jarr xs => by rw [jsort, jsort, jsortList_idem xs]
  | JValue.jobj kvs => by
    rw [jsort, jsort, sortPairs_jsortPairs_comm, jsortPairs_idem kvs, sortPairs_idem]

theorem jsortList_idem : (xs : List JValue) → jsortList (jsortList xs) = jsortList xs
  | [] => rfl
  | x :: xs => by rw [jsortList, jsortList, jsort_idem x, jsortList_idem xs]

theorem jsortPairs_idem : (kvs : List (String × JValue)) →
    jsortPairs (jsortPairs kvs) = jsortPairs kvs
  | [] => rfl
  | (k, v) :: xs => by rw [jsortPairs, jsortPairs, jsort_idem v, jsortPairs_idem xs]
end

/-- C2: two Data records whose hash=True field dictionaries hold equal
values (a permutation of one another, field declaration order immaterial;
pydantic field names are unique, giving the Nodup hypothesis) produce the
same hash.  The hash is by definition hashify over exactly the hash=True
fields (canonical key-sorted JSON), and Data.hash is a total Lean
function, so it never raises. -/
theorem C2_hash_order_invariant (r1 r2 : Data)
    (hn : (r1.hashPairs.map Prod.fst).Nodup)
    (hperm : r1.hashPairs.Perm r2.hashPairs) :
    r1.hash = r2.hash := by
  have hmap : (jsortPairs r1.hashPairs).Perm (jsortPairs r2.hashPairs) := by
    rw [jsortPairs_eq_map, jsortPairs_eq_map]
    exact hperm.map _
  have hkeys : ((jsortPairs r1.hashPairs).map Prod.fst).Nodup := by
    rw [jsortPairs_eq_map, List.map_map]
    exact hn
  have key : sortPairs (jsortPairs r1.hashPairs) = sortPairs (jsortPairs r2.hashPairs) :=
    sortPairs_perm_eq hmap hkeys
  simp only [Data.hash, hashify, jdump, jsort]
  rw [key]

def wr1 : Data := ⟨[⟨"a", JValue.jnum 1, true, false⟩, ⟨"b", JValue.jstr "x", true, false⟩,
  ⟨"c", JValue.jnum 9, false, true⟩]⟩

def wr2 : Data := ⟨[⟨"c", JValue.jnum 9, false, true⟩, ⟨"b", JValue.jstr "x", true, false⟩,
  ⟨"a", JValue.jnum 1, true, false⟩]⟩

/-- Witness for C2: two concrete records declaring the same fields in
opposite orders hash identically. -/
theorem C2_hash_order_invariant_witness :
    (wr1.hashPairs.map Prod.fst).Nodup ∧ wr1.hashPairs.Perm wr2.hashPairs ∧
      wr1.hash = wr2.hash := by
  refine ⟨by decide, ?_, ?_⟩
  · exact List.Perm.swap _ _ _
  · exact C2_hash_order_invariant wr1 wr2 (by decide) (List.Perm.swap _ _ _)

theorem alookup_eq_some_iff {α : Type} {l : List (String × α)}
    (hn : (l.map Prod.fst).Nodup) {k : String} {v : α} :
    alookup k l = some v ↔ (k, v) ∈ l := by
  induction l with
  | nil => simp [alookup]
  | cons kv tl ih =>
    simp only [List.map_cons, List.nodup_cons] at hn
    by_cases h : kv.1 = k
    · rw [alookup, List.find?_cons_of_pos _ (by simp [h])]
      simp only [Option.map_some, Option.some_inj, List.mem_cons]
      constructor
      · intro hv
        left
        cases kv
        simp_all
      · rintro (hv | hv)
        · rw [← hv]
          rfl
        · exact absurd (h ▸ List.mem_map_of_mem Prod.fst hv) hn.1
    · rw [alookup, List.find?_cons_of_neg _ (by simp [h])]
      rw [show ((tl.find? fun x => x.1 == k).map fun x => x.2) = alookup k tl from rfl]
      rw [ih hn.2]
      simp only [List.mem_cons]
      constructor
      · intro hv
        right
        exact hv
      · rintro (hv | hv)
        · exact absurd (congrArg Prod.fst hv.symm) h
        · exact hv

theorem alookup_eq_none_iff {α : Type} {l : List (String × α)} {k : String} :
    alookup k l = none ↔ ∀ kv ∈ l, kv.1 ≠ k := by
  simp [alookup, List.find?_eq_none]

theorem alookup_perm {α : Type} {l1 l2 : List (String × α)} (hp : l1.Perm l2)
    (hn : (l1.map Prod.fst).Nodup) (k : String) : alookup k l1 = alookup k l2 := by
  cases h : alookup k l1 with
  | none =>
    symm
    rw [alookup_eq_none_iff] at h ⊢
    intro kv hkv
    exact h kv (hp.symm.subset hkv)
  | some v =>
    symm
    have hm := (alookup_eq_some_iff hn).mp h
    exact (alookup_eq_some_iff ((hp.map Prod.fst).nodup hn)).mpr (hp.subset hm)

theorem alookup_map_value {α β : Type} (g : α → β) (k : String) (l : List (String × α)) :
    alookup k (l.map fun kv => (kv.1, g kv.2)) = (alookup k l).map g := by
  induction l with
  | nil => simp [alookup]
  | cons kv tl ih =>
    simp only [List.map_cons]
    by_cases h : kv.1 = k
    · rw [alookup, List.find?_cons_of_pos _ (by simp [h]), alookup,
        List.find?_cons_of_pos _ (by simp [h])]
      rfl
    · rw [alookup, List.find?_cons_of_neg _ (by simp [h]), alookup,
        List.find?_cons_of_neg _ (by simp [h])]
      exact ih

theorem getattr_eq_alookup (r : Data) (n : String) :
    r.getattr n = alookup n r.dict := by
  simp only [Data.getattr, Data.dict, alookup, List.find?_map]
  rw [Option.map_map]
  rfl

theorem persistPairs_keys_nodup (r : Data) (hn : (r.fields.map DField.name).Nodup) :
    (r.persistPairs.map Prod.fst).Nodup := by
  rw [Data.persistPairs, List.map_map]
  exact ((List.filter_sublist _).map DField.name).nodup hn

theorem alookup_canonPairs {l : List (String × JValue)}
    (hn : (l.map Prod.fst).Nodup) (k : String) :
    alookup k (canonPairs l) = (alookup k l).map jsort := by
  have hkeys : ((jsortPairs l).map Prod.fst).Nodup := by
    rw [jsortPairs_eq_map, List.map_map]
    exact hn
  have hperm : (sortPairs (jsortPairs l)).Perm (jsortPairs l) :=
    List.mergeSort_perm (jsortPairs l) _
  rw [canonPairs, alookup_perm hperm ((hperm.map Prod.fst).symm.nodup hkeys) k,
    jsortPairs_eq_map, alookup_map_value]

theorem alookup_fields_val (val : DField → JValue) (l : List DField)
    (hn : (l.map DField.name).Nodup) (f : DField) (hf : f ∈ l) :
    alookup f.name (l.map fun g => (g.name, val g)) = some (val f) := by
  have hkeys : ((l.map fun g => (g.name, val g)).map Prod.fst).Nodup := by
    rw [List.map_map]
    exact hn
  exact (alookup_eq_some_iff hkeys).mpr (List.mem_map_of_mem _ hf)

theorem alookup_persistPairs (r : Data) (hn : (r.fields.map DField.name).Nodup)
    (f : DField) (hf : f ∈ r.fields) :
    alookup f.name r.persistPairs = if f.persistFlag then some f.value else none := by
  by_cases hp : f.persistFlag
  · rw [if_pos hp]
    apply (alookup_eq_some_iff (persistPairs_keys_nodup r hn)).mpr
    exact List.mem_map_of_mem _ (List.mem_filter.mpr ⟨hf, by simp [hp]⟩)
  · rw [if_neg hp]
    apply alookup_eq_none_iff.mpr
    intro kv hkv heq
    obtain ⟨g, hg, hgeq⟩ := List.mem_map.mp hkv
    have hgf : g = f :=
      List.inj_on_of_nodup_map hn (List.mem_of_mem_filter hg) hf
        (by rw [show g.name = kv.1 from by rw [← hgeq], heq])
    exact hp (by simpa [hgf] using (List.mem_filter.mp hg).2)

theorem restore_canon_fields (r : Data) (hn : (r.fields.map DField.name).Nodup) :
    (r.update_from_persist_str (canonPairs r.persistPairs)).fields =
      r.fields.map fun f => if f.persistFlag then { f with value := jsort f.value } else f := by
  have hppkeys := persistPairs_keys_nodup r hn
  have hblob : ∀ f ∈ r.fields, alookup f.name (canonPairs r.persistPairs) =
      if f.persistFlag then some (jsort f.value) else none := by
    intro f hf
    rw [alookup_canonPairs hppkeys, alookup_persistPairs r hn f hf]
    by_cases hp : f.persistFlag <;> simp [hp]
  have hmerge : dictUpdate r.dict (canonPairs r.persistPairs) =
      r.fields.map fun f => (f.name, if f.persistFlag then jsort f.value else f.value) := by
    unfold dictUpdate
    have h2 : ((canonPairs r.persistPairs).filter fun kv => (alookup kv.1 r.dict).isNone) = [] := by
      rw [List.filter_eq_nil_iff]
      intro kv hkv
      have hkv2 : kv ∈ jsortPairs r.persistPairs :=
        (List.mergeSort_perm (jsortPairs r.persistPairs) _).subset hkv
      rw [jsortPairs_eq_map] at hkv2
      obtain ⟨kv0, hkv0, hkveq⟩ := List.mem_map.mp hkv2
      obtain ⟨g, hg, hgeq⟩ := List.mem_map.mp hkv0
      have hkey : kv.1 = g.name := by rw [← hkveq, ← hgeq]
      have hlook : alookup kv.1 r.dict = some g.value := by
        rw [hkey]
        exact alookup_fields_val DField.value r.fields hn g (List.mem_of_mem_filter hg)
      simp [hlook]
    rw [h2, List.append_nil]
    rw [show r.dict = r.fields.map (fun f => (f.name, f.value)) from rfl, List.map_map]
    apply List.map_congr_left
    intro f hf
    simp only [Function.comp_apply]
    rw [hblob f hf]
    by_cases hp : f.persistFlag <;> simp [hp]
  rw [Data.update_from_persist_str, hmerge]
  have hparse : r.parse_obj (r.fields.map fun f =>
      (f.name, if f.persistFlag then jsort f.value else f.value)) =
      ⟨r.fields.map fun f =>
        { f with value := if f.persistFlag then jsort f.value else f.value }⟩ := by
    rw [Data.parse_obj]
    congr 1
    apply List.map_congr_left
    intro f hf
    rw [alookup_fields_val (fun g => if g.persistFlag then jsort g.value else g.value)
      r.fields hn f hf]
    rfl
  rw [hparse, Data.update]
  apply List.map_congr_left
  intro f hf
  by_cases hp : f.persistFlag
  · rw [if_pos hp, if_pos hp]
    rw [getattr_eq_alookup]
    have hdict : (Data.mk (r.fields.map fun f =>
        { f with value := if f.persistFlag then jsort f.value else f.value })).dict =
        r.fields.map fun g => (g.name, if g.persistFlag then jsort g.value else g.value) := by
      rw [Data.dict, List.map_map]
      rfl
    rw [hdict, alookup_fields_val (fun g => if g.persistFlag then jsort g.value else g.value)
      r.fields hn f hf]
    simp [hp]
  · rw [if_neg hp, if_neg hp]

/-- C8: restoring a record from its own persisted blob (the dictionary
denoted by the persist_str JSON text) is a fixed point of persist -
the subsequent persist_str output is unchanged - and every field not
marked persist=True is left exactly as it was; restore overwrites only the
persisted fields. -/
theorem C8_persist_restore_roundtrip (r : Data) (hn : (r.fields.map DField.name).Nodup) :
    (r.update_from_persist_str (canonPairs r.persistPairs)).persist_str = r.persist_str ∧
    ((r.update_from_persist_str (canonPairs r.persistPairs)).fields.filter
        fun f => !f.persistFlag) =
      (r.fields.filter fun f => !f.persistFlag) := by
  constructor
  · rw [Data.persist_str, Data.persist_str]
    have hpp : (r.update_from_persist_str (canonPairs r.persistPairs)).persistPairs =
        jsortPairs r.persistPairs := by
      rw [Data.persistPairs, restore_canon_fields r hn, List.filter_map]
      have hpred : ∀ f ∈ r.fields, ((fun f => f.persistFlag) ∘ fun f =>
          if f.persistFlag then { f with value := jsort f.value } else f) f
            = (fun f => f.persistFlag) f := by
        intro f hf
        by_cases hp : f.persistFlag <;> simp [hp]
      rw [List.filter_congr hpred, List.map_map, Data.persistPairs, jsortPairs_eq_map,
        List.map_map]
      apply List.map_congr_left
      intro f hf
      have hp := (List.mem_filter.mp hf).2
      simp only [Function.comp_apply, hp, if_pos]
    rw [hpp, jdump, jdump, jsort, jsort, jsortPairs_idem]
  · rw [restore_canon_fields r hn, List.filter_map]
    have hpred : ∀ f ∈ r.fields, ((fun f => !f.persistFlag) ∘ fun f =>
        if f.persistFlag then { f with value := jsort f.value } else f) f
          = (fun f => !f.persistFlag) f := by
      intro f hf
      by_cases hp : f.persistFlag <;> simp [hp]
    rw [List.filter_congr hpred]
    have hid : ∀ f ∈ (r.fields.filter fun f => !f.persistFlag),
        (fun f => if f.persistFlag then { f with value := jsort f.value } else f) f = f := by
      intro f hf
      have hp := (List.mem_filter.mp hf).2
      simp [show f.persistFlag = false from by simpa using hp]
    rw [List.map_congr_left hid]
    exact List.map_id' _

/-- Witness for C8 at a concrete record with persistable and
non-persistable fields. -/
theorem C8_persist_restore_roundtrip_witness :
    (wr1.fields.map DField.name).Nodup ∧
      ((wr1.update_from_persist_str (canonPairs wr1.persistPairs)).persist_str =
          wr1.persist_str ∧
        ((wr1.update_from_persist_str (canonPairs wr1.persistPairs)).fields.filter
            fun f => !f.persistFlag) =
          (wr1.fields.filter fun f => !f.persistFlag)) :=
  ⟨by decide, C8_persist_restore_roundtrip wr1 (by decide)⟩


theorem registerAll_ok {α : Type} : ∀ (classes reg : List (String × α)),
    (reg.map Prod.fst ++ classes.map Prod.fst).Nodup →
    ∃ r, registerAll reg classes = Except.ok r ∧
      r.map Prod.fst = reg.map Prod.fst ++ classes.map Prod.fst := by
  intro classes
  induction classes with
  | nil =>
    intro reg hn
    exact ⟨reg, rfl, by simp⟩
  | cons c tl ih =>
    intro reg hn
    rcases c with ⟨n, cls⟩
    have hn' : ((reg ++ [(n, cls)]).map Prod.fst ++ tl.map Prod.fst).Nodup := by
      simpa [List.append_assoc] using hn
    have hnotin : n ∉ reg.map Prod.fst := by
      rw [List.nodup_append] at hn
      exact fun hmem => hn.2.2 hmem (by simp)
    have halo : alookup n reg = none :=
      alookup_eq_none_iff.mpr fun kv hkv heq =>
        hnotin (heq ▸ List.mem_map_of_mem Prod.fst hkv)
    have hreg : register reg (some n) cls = Except.ok (reg ++ [(n, cls)]) := by
      rw [register, halo]
    obtain ⟨r, hr, hkeys⟩ := ih (reg ++ [(n, cls)]) hn'
    refine ⟨r, ?_, ?_⟩
    · show List.foldlM (fun reg c => register reg (some c.1) c.2) reg ((n, cls) :: tl) =
        Except.ok r
      rw [List.foldlM_cons]
      simp only [hreg]
      exact hr
    · rw [hkeys]
      simp [List.append_assoc]

/-- C9: registry uniqueness.  Registering under a name already present in
a registry fails at the registration step (the __init_subclass__ assertion
at class-definition/import time; register receives the class itself and
constructs no instance), registering a fresh name always succeeds, and any
permutation of a duplicate-free registration sequence succeeds - order is
irrelevant. -/
theorem C9_registry_unique_names {α : Type} (reg : List (String × α)) (n : String) (c c0 : α) :
    (alookup n reg = some c0 → register reg (some n) c =
      Except.error (n ++ " already registered")) ∧
    (alookup n reg = none → register reg (some n) c = Except.ok (reg ++ [(n, c)])) ∧
    (∀ classes classes2 : List (String × α), classes.Perm classes2 →
      (classes.map Prod.fst).Nodup →
      (∃ r, registerAll [] classes = Except.ok r) ∧
        ∃ r2, registerAll [] classes2 = Except.ok r2) := by
  refine ⟨?_, ?_, ?_⟩
  · intro h
    rw [register, h]
  · intro h
    rw [register, h]
  · intro classes classes2 hp hn
    constructor
    · obtain ⟨r, hr, _⟩ := registerAll_ok classes [] (by simpa using hn)
      exact ⟨r, hr⟩
    · obtain ⟨r2, hr2, _⟩ :=
        registerAll_ok classes2 [] (by simpa using (hp.map Prod.fst).nodup hn)
      exact ⟨r2, hr2⟩

/-- Witness for C9: a duplicate registration fails, a fresh one succeeds,
and both orders of a two-element registration sequence succeed. -/
theorem C9_registry_unique_names_witness :
    alookup "sql" [("sql", "SqlStorage")] = some "SqlStorage" ∧
    register [("sql", "SqlStorage")] (some "sql") "OtherStorage" =
      Except.error ("sql" ++ " already registered") ∧
    alookup "memory" [("sql", "SqlStorage")] = none ∧
    register [("sql", "SqlStorage")] (some "memory") "MemStorage" =
      Except.ok [("sql", "SqlStorage"), ("memory", "MemStorage")] ∧
    (∃ r, registerAll ([] : List (String × String)) [("a", "A"), ("b", "B")] =
      Except.ok r) ∧
    (∃ r2, registerAll ([] : List (String × String)) [("b", "B"), ("a", "A")] =
      Except.ok r2) :=
  ⟨rfl,
    (C9_registry_unique_names [("sql", "SqlStorage")] "sql" "OtherStorage" "SqlStorage").1 rfl,
    rfl,
    (C9_registry_unique_names [("sql", "SqlStorage")] "memory" "MemStorage" "SqlStorage").2.1 rfl,
    ((C9_registry_unique_names ([] : List (String × String)) "x" "X" "X").2.2
      [("a", "A"), ("b", "B")] [("b", "B"), ("a", "A")] (by decide) (by decide)).1,
    ((C9_registry_unique_names ([] : List (String × String)) "x" "X" "X").2.2
      [("a", "A"), ("b", "B")] [("b", "B"), ("a", "A")] (by decide) (by decide)).2⟩

theorem hash_update_from_persist (r : Data) (blob : List (String × JValue))
    (hdisj : ∀ f ∈ r.fields, f.hashFlag → f.persistFlag = false) :
    (r.update_from_persist_str blob).hash = r.hash := by
  rw [Data.hash, Data.hash]
  congr 1
  rw [Data.hashPairs, Data.hashPairs, Data.update_from_persist_str, Data.update]
  rw [List.filter_map]
  have hpred : ∀ f ∈ r.fields, ((fun f => f.hashFlag) ∘ fun f =>
      if f.persistFlag then
        { f with value := (((r.parse_obj (dictUpdate r.dict blob)).getattr f.name).getD
            f.value) }
      else f) f = (fun f => f.hashFlag) f := by
    intro f hf
    by_cases hp : f.persistFlag <;> simp [hp]
  rw [List.filter_congr hpred, List.map_map]
  apply List.map_congr_left
  intro f hf
  have hh := (List.mem_filter.mp hf).2
  have hp := hdisj f (List.mem_of_mem_filter hf) (by simpa using hh)
  simp [hp]

theorem find?_eraseP_self (h : String) : ∀ t : List Conversation,
    (t.map Conversation.hash).Nodup →
    (t.eraseP (fun row => row.hash == h)).find? (fun row => row.hash == h) = none := by
  intro t
  induction t with
  | nil => intro _; rfl
  | cons r tl ih =>
    intro hnd
    simp only [List.map_cons, List.nodup_cons] at hnd
    by_cases hr : (r.hash == h) = true
    · rw [List.eraseP_cons, hr]
      simp only [cond_true]
      apply List.find?_eq_none.mpr
      intro row2 hrow2
      simp only [beq_iff_eq]
      intro hbeq
      apply hnd.1
      rw [show r.hash = h from by simpa using hr, ← hbeq]
      exact List.mem_map_of_mem _ hrow2
    · rw [List.eraseP_cons, show (r.hash == h) = false from by simpa using hr]
      simp only [cond_false]
      rw [List.find?_cons, show (r.hash == h) = false from by simpa using hr]
      simp only [cond_false]
      exact ih hnd.2

theorem find?_delete_conversation (t : ConversationTable) (ctx : Data)
    (hnd : (t.map Conversation.hash).Nodup) :
    (delete_conversation t ctx).find? (fun row => row.hash == ctx.hash) = none := by
  rw [delete_conversation]
  cases hfind : t.find? (fun row => row.hash == ctx.hash) with
  | none => exact hfind
  | some row => exact find?_eraseP_self ctx.hash t hnd

theorem get_command_ctx (reg : CommandRegistry) (t : ConversationTable) (msg : String)
    (cdata : Data) (tok : String) (spec : CommandSpec) (data : JValue) (ctx : Data)
    (h : get_command reg t msg cdata = Except.ok (tok, spec, data, ctx)) :
    ctx = cdata ∨ ∃ blob, ctx = cdata.update_from_persist_str blob := by
  rw [get_command, load_conversation] at h
  split at h
  · exact absurd h (by simp)
  · rename_i x name0 spec0 data0 ctx0 heq
    simp only [Except.ok.injEq, Prod.mk.injEq] at h
    split at heq
    · exact absurd heq (by simp)
    · split at heq
      · exact absurd heq (by simp)
      · simp only [Except.ok.injEq, Prod.mk.injEq] at heq
        right
        exact ⟨_, h.2.2.2 ▸ heq.2.symm⟩
  · rename_i x ctx0 heq
    split at heq
    · simp only [Except.ok.injEq, Prod.mk.injEq] at heq
      split at h
      · exact absurd h (by simp)
      · split at h
        · exact absurd h (by simp)
        · simp only [Except.ok.injEq, Prod.mk.injEq] at h
          left
          exact (heq.2.trans h.2.2.2).symm
    · split at heq
      · exact absurd heq (by simp)
      · exact absurd heq (by simp)

/-- The in-place column rewrite save_conversation performs on an existing
row: command_data and context_data are overwritten, hash and command_name
stay. -/
def updatedRow (d : JValue) (cd : List (String × JValue)) (r : Conversation) : Conversation :=
  { r with command_data := d, context_data := cd }

/-- On the update branch, looking the hash up again returns the found row
with its two data columns overwritten. -/
theorem find?_save_update (t : ConversationTable) (h : String) (d : JValue)
    (cd : List (String × JValue)) :
    ((t.map fun r => if r.hash == h then updatedRow d cd r else r).find?
      (fun r => r.hash == h)) =
    (t.find? (fun r => r.hash == h)).map (updatedRow d cd) := by
  induction t with
  | nil => rfl
  | cons r tl ih =>
    simp only [List.map_cons]
    by_cases hb : (r.hash == h) = true
    · rw [if_pos hb, List.find?_cons, List.find?_cons]
      simp only [updatedRow, hb, cond_true]
      rfl
    · rw [if_neg hb, List.find?_cons, List.find?_cons]
      have hb' : (r.hash == h) = false := by simpa using hb
      simp only [hb', cond_false]
      exact ih

/-- C1: conversation lifecycle of the message handler, for every processed
message.  First conjunct, no stored conversation for the context hash:
with a resolvable first token, satisfiable injection and process returning
cont with mutated data, a truthy cont inserts one row keyed by the context
hash holding the command's name and serialized data, and any second
message with the same context hash restores exactly that command variant
and data from the row instead of constructing a new command from the
message; a falsy cont leaves the table unchanged - deleting the
nonexistent row is a no-op, not an error.  Second conjunct, a stored
conversation row exists for the hash (table hashes unique per the schema,
context hash fields disjoint from persist fields as in the shipped
platform): a truthy cont overwrites that row's command data and context
data in place, keeping its hash and command name, and a second message
with the same context hash restores the overwritten variant and data; a
falsy cont actually deletes the existing row, leaving no row for the hash.
-/
theorem C1_conversation_lifecycle (reg : CommandRegistry) (integ : List String)
    (t : ConversationTable) (m1 : String) (cdata : Data) :
    (∀ tok rest spec cont d1,
      t.find? (fun r => r.hash == cdata.hash) = none →
      split m1 = some (tok, rest) →
      alookup tok reg = some spec →
      inject_integrations integ spec.requires = Except.ok () →
      spec.process m1 spec.defaultData = ProcResult.ok cont d1 →
      ((truthy cont = true →
        (process_message reg integ t m1 cdata).responses = [] ∧
        (process_message reg integ t m1 cdata).table.find?
            (fun r => r.hash == cdata.hash) =
          some ⟨cdata.hash, tok, jsort d1, canonPairs cdata.persistPairs⟩ ∧
        (∀ m2 cdata2, cdata2.hash = cdata.hash →
          get_command reg (process_message reg integ t m1 cdata).table m2 cdata2 =
            Except.ok (tok, spec, jsort d1,
              cdata2.update_from_persist_str (canonPairs cdata.persistPairs)))) ∧
       (truthy cont = false →
        (process_message reg integ t m1 cdata).responses = [] ∧
        (process_message reg integ t m1 cdata).table = t ∧
        (process_message reg integ t m1 cdata).table.find?
            (fun r => r.hash == cdata.hash) = none))) ∧
    (∀ row spec cont d1,
      (t.map Conversation.hash).Nodup →
      (∀ f ∈ cdata.fields, f.hashFlag → f.persistFlag = false) →
      t.find? (fun r => r.hash == cdata.hash) = some row →
      alookup row.command_name reg = some spec →
      inject_integrations integ spec.requires = Except.ok () →
      spec.process m1 row.command_data = ProcResult.ok cont d1 →
      ((truthy cont = true →
        (process_message reg integ t m1 cdata).responses = [] ∧
        (process_message reg integ t m1 cdata).table.find?
            (fun r => r.hash == cdata.hash) =
          some ⟨row.hash, row.command_name, jsort d1,
            canonPairs (cdata.update_from_persist_str row.context_data).persistPairs⟩ ∧
        (∀ m2 cdata2, cdata2.hash = cdata.hash →
          get_command reg (process_message reg integ t m1 cdata).table m2 cdata2 =
            Except.ok (row.command_name, spec, jsort d1,
              cdata2.update_from_persist_str
                (canonPairs (cdata.update_from_persist_str row.context_data).persistPairs)))) ∧
       (truthy cont = false →
        (process_message reg integ t m1 cdata).responses = [] ∧
        (process_message reg integ t m1 cdata).table.find?
            (fun r => r.hash == cdata.hash) = none))) := by
  constructor
  · intro tok rest spec cont d1 hfind hsplit hreg hinj hproc
    have hload : load_conversation reg t cdata = Except.ok (none, cdata) := by
      rw [load_conversation, hfind]
    have hget : get_command reg t m1 cdata =
        Except.ok (tok, spec, spec.defaultData, cdata) := by
      simp only [get_command, hload, hsplit, hreg]
    have hsave : save_conversation t cdata tok d1 =
        t ++ [⟨cdata.hash, tok, jsort d1, canonPairs cdata.persistPairs⟩] := by
      rw [save_conversation, hfind]
    constructor
    · intro htr
      have hpm : process_message reg integ t m1 cdata =
          ⟨save_conversation t cdata tok d1, []⟩ := by
        simp only [process_message, hget, hinj, hproc, htr, if_pos]
      have hfindrow : ∀ h2 : String, h2 = cdata.hash →
          (save_conversation t cdata tok d1).find? (fun r => r.hash == h2) =
            some ⟨cdata.hash, tok, jsort d1, canonPairs cdata.persistPairs⟩ := by
        intro h2 hh2
        subst hh2
        rw [hsave, List.find?_append, hfind]
        simp [List.find?_cons_of_pos]
      refine ⟨by rw [hpm], ?_, ?_⟩
      · rw [hpm]
        exact hfindrow cdata.hash rfl
      · intro m2 cdata2 h2
        rw [hpm]
        simp only [get_command, load_conversation, hfindrow cdata2.hash h2, hreg]
    · intro htr
      have hdel : delete_conversation t cdata = t := by
        rw [delete_conversation, hfind]
      have hpm : process_message reg integ t m1 cdata =
          ⟨delete_conversation t cdata, []⟩ := by
        simp only [process_message, hget, hinj, hproc, htr, Bool.false_eq_true, if_neg,
          not_false_eq_true]
      exact ⟨by rw [hpm], by rw [hpm, hdel], by rw [hpm, hdel]; exact hfind⟩
  · intro row spec cont d1 hnd hdisj hfind hreg hinj hproc
    have hload : load_conversation reg t cdata =
        Except.ok (some (row.command_name, spec, row.command_data),
          cdata.update_from_persist_str row.context_data) := by
      simp only [load_conversation, hfind, hreg]
    have hget : get_command reg t m1 cdata =
        Except.ok (row.command_name, spec, row.command_data,
          cdata.update_from_persist_str row.context_data) := by
      simp only [get_command, hload]
    have hhash : (cdata.update_from_persist_str row.context_data).hash = cdata.hash :=
      hash_update_from_persist cdata row.context_data hdisj
    constructor
    · intro htr
      have hpm : process_message reg integ t m1 cdata =
          ⟨save_conversation t (cdata.update_from_persist_str row.context_data)
            row.command_name d1, []⟩ := by
        simp only [process_message, hget, hinj, hproc, htr, if_pos]
      have hsave : save_conversation t (cdata.update_from_persist_str row.context_data)
          row.command_name d1 =
          t.map fun r => if r.hash == cdata.hash then
            updatedRow (jsort d1)
              (canonPairs (cdata.update_from_persist_str row.context_data).persistPairs) r
          else r := by
        rw [save_conversation, hhash, hfind]
        rfl
      have hfindrow : ∀ h2 : String, h2 = cdata.hash →
          (save_conversation t (cdata.update_from_persist_str row.context_data)
            row.command_name d1).find? (fun r => r.hash == h2) =
            some ⟨row.hash, row.command_name, jsort d1,
              canonPairs (cdata.update_from_persist_str row.context_data).persistPairs⟩ := by
        intro h2 hh2
        subst hh2
        rw [hsave, find?_save_update, hfind]
        rfl
      refine ⟨by rw [hpm], ?_, ?_⟩
      · rw [hpm]
        exact hfindrow cdata.hash rfl
      · intro m2 cdata2 h2
        rw [hpm]
        simp only [get_command, load_conversation, hfindrow cdata2.hash h2, hreg]
    · intro htr
      have hpm : process_message reg integ t m1 cdata =
          ⟨delete_conversation t (cdata.update_from_persist_str row.context_data), []⟩ := by
        simp only [process_message, hget, hinj, hproc, htr, Bool.false_eq_true, if_neg,
          not_false_eq_true]
      refine ⟨by rw [hpm], ?_⟩
      rw [hpm]
      show (delete_conversation t
        (cdata.update_from_persist_str row.context_data)).find?
          (fun r => r.hash == cdata.hash) = none
      rw [delete_conversation, hhash, hfind]
      exact find?_eraseP_self cdata.hash t hnd

/-- C5: per-message error containment.  Whenever command resolution,
integration injection or the process call raises, process_message still
returns normally (nothing propagates out of the handler), the captured
error text is sent to the user as the only response, and the conversation
row for the context hash is deleted.  The Nodup hypothesis reflects the
unique hash column of the conversations table; the disjointness hypothesis
says no context field is both hash=True and persist=True, as in the
shipped platform's CommandData. -/
theorem C5_error_containment (reg : CommandRegistry) (integ : List String) (t : ConversationTable)
    (msg : String) (cdata : Data)
    (hnd : (t.map Conversation.hash).Nodup)
    (hdisj : ∀ f ∈ cdata.fields, f.hashFlag → f.persistFlag = false) :
    (∀ e, get_command reg t msg cdata = Except.error e →
      process_message reg integ t msg cdata =
        ⟨delete_conversation t cdata, [format_error e]⟩ ∧
      (process_message reg integ t msg cdata).table.find?
        (fun row => row.hash == cdata.hash) = none) ∧
    (∀ tok spec data ctx e,
      get_command reg t msg cdata = Except.ok (tok, spec, data, ctx) →
      inject_integrations integ spec.requires = Except.error e →
      process_message reg integ t msg cdata =
        ⟨delete_conversation t ctx, [format_error e]⟩ ∧
      (process_message reg integ t msg cdata).table.find?
        (fun row => row.hash == cdata.hash) = none) ∧
    (∀ tok spec data ctx e,
      get_command reg t msg cdata = Except.ok (tok, spec, data, ctx) →
      inject_integrations integ spec.requires = Except.ok () →
      spec.process msg data = ProcResult.exc e →
      process_message reg integ t msg cdata =
        ⟨delete_conversation t ctx, [format_error e]⟩ ∧
      (process_message reg integ t msg cdata).table.find?
        (fun row => row.hash == cdata.hash) = none) := by
  refine ⟨?_, ?_, ?_⟩
  · intro e hget
    have hpm : process_message reg integ t msg cdata =
        ⟨delete_conversation t cdata, [format_error e]⟩ := by
      simp only [process_message, hget]
    exact ⟨hpm, by rw [hpm]; exact find?_delete_conversation t cdata hnd⟩
  · intro tok spec data ctx e hget hinj
    have hpm : process_message reg integ t msg cdata =
        ⟨delete_conversation t ctx, [format_error e]⟩ := by
      simp only [process_message, hget, hinj]
    have hh : ctx.hash = cdata.hash := by
      rcases get_command_ctx reg t msg cdata tok spec data ctx hget with hc | ⟨blob, hc⟩
      · rw [hc]
      · rw [hc]
        exact hash_update_from_persist cdata blob hdisj
    refine ⟨hpm, ?_⟩
    rw [hpm, ← hh]
    exact find?_delete_conversation t ctx hnd
  · intro tok spec data ctx e hget hinj hproc
    have hpm : process_message reg integ t msg cdata =
        ⟨delete_conversation t ctx, [format_error e]⟩ := by
      simp only [process_message, hget, hinj, hproc]
    have hh : ctx.hash = cdata.hash := by
      rcases get_command_ctx reg t msg cdata tok spec data ctx hget with hc | ⟨blob, hc⟩
      · rw [hc]
      · rw [hc]
        exact hash_update_from_persist cdata blob hdisj
    refine ⟨hpm, ?_⟩
    rw [hpm, ← hh]
    exact find?_delete_conversation t ctx hnd

/-- C6 (amended): a command handler requiring a Content Provider absent
from the active configuration does not fail bot construction;
create_from_configuration succeeds as long as the configured component
names resolve in their registries.  The failure surfaces when a message
invokes that command: inject_integrations raises the assertion, which the
per-message boundary catches, sending the rendered error and deleting the
conversation row. -/
theorem C6_missing_integration_per_call (storageReg platformReg integrationReg : List String)
    (cfg : Configuration) (reg : CommandRegistry) (t : ConversationTable)
    (msg : String) (cdata : Data) (tok rest : String) (spec : CommandSpec) (miss : String)
    (hsto : storageReg.contains cfg.storage.name = true)
    (hplat : platformReg.contains cfg.platform.name = true)
    (hinteg : cfg.integrations.find? (fun i => !(integrationReg.contains i.name)) = none)
    (hfind : t.find? (fun row => row.hash == cdata.hash) = none)
    (hsplit : split msg = some (tok, rest))
    (hreg : alookup tok reg = some spec)
    (hmiss : spec.requires.find?
        (fun n => !((cfg.integrations.map fun i => i.name).contains n)) = some miss) :
    create_from_configuration storageReg platformReg integrationReg cfg =
      Except.ok (cfg.integrations.map fun i => i.name) ∧
    process_message reg (cfg.integrations.map fun i => i.name) t msg cdata =
      ⟨delete_conversation t cdata,
        [format_error ("cannot inject integration: " ++ miss)]⟩ := by
  constructor
  · simp only [create_from_configuration, hsto, hplat, hinteg, Bool.not_true,
      Bool.false_eq_true, if_false, ite_false]
  · have hload : load_conversation reg t cdata = Except.ok (none, cdata) := by
      rw [load_conversation, hfind]
    have hget : get_command reg t msg cdata =
        Except.ok (tok, spec, spec.defaultData, cdata) := by
      simp only [get_command, hload, hsplit, hreg]
    have hinj : inject_integrations (cfg.integrations.map fun i => i.name) spec.requires =
        Except.error ("cannot inject integration: " ++ miss) := by
      rw [inject_integrations, hmiss]
    simp only [process_message, hget, hinj]

def wYtSpec : CommandSpec :=
  ⟨JValue.jobj [], ["youtube"], fun _ d => ProcResult.ok (some false) d⟩

def wRegYt : CommandRegistry := [("yt", wYtSpec)]

def wCfg : Configuration := ⟨⟨"sql"⟩, ⟨"discord"⟩, []⟩

/-- C6 counterexample: refutes the claim as stated.  With the command
registry holding the yt command requiring the youtube provider and a
configuration listing no integrations, bot construction from the
configuration succeeds (no fatal error at construction time), while
handling one yt message produces exactly the caught injection error as a
per-call response. -/
theorem C6_construction_time_counterexample :
    create_from_configuration ["sql"] ["discord"] ["youtube"] wCfg = Except.ok [] ∧
    process_message wRegYt [] [] "yt song" wr1 =
      ⟨[], [format_error ("cannot inject integration: " ++ "youtube")]⟩ :=
  ⟨rfl, rfl⟩

/-- Witness for the amended C6 at the concrete configuration and
registry of the counterexample. -/
theorem C6_missing_integration_per_call_witness :
    (["sql"].contains wCfg.storage.name = true) ∧
    (["discord"].contains wCfg.platform.name = true) ∧
    (wCfg.integrations.find? (fun i => !(["youtube"].contains i.name)) = none) ∧
    split "yt song" = some ("yt", "song") ∧
    alookup "yt" wRegYt = some wYtSpec ∧
    (wYtSpec.requires.find?
      (fun n => !((wCfg.integrations.map fun i => i.name).contains n)) = some "youtube") ∧
    (create_from_configuration ["sql"] ["discord"] ["youtube"] wCfg =
      Except.ok (wCfg.integrations.map fun i => i.name) ∧
    process_message wRegYt (wCfg.integrations.map fun i => i.name) [] "yt song" wr1 =
      ⟨delete_conversation [] wr1,
        [format_error ("cannot inject integration: " ++ "youtube")]⟩) :=
  ⟨rfl, rfl, rfl, by decide, rfl, rfl,
    C6_missing_integration_per_call ["sql"] ["discord"] ["youtube"] wCfg wRegYt [] "yt song" wr1
      "yt" "song" wYtSpec "youtube" rfl rfl rfl rfl (by decide) rfl rfl⟩

def wspecTrue : CommandSpec :=
  ⟨JValue.jobj [], [], fun _ _ => ProcResult.ok (some true) (JValue.jstr "state1")⟩

def wspecFalse : CommandSpec :=
  ⟨JValue.jobj [], [], fun _ _ => ProcResult.ok (some false) (JValue.jobj [])⟩

def wregCmd : CommandRegistry := [("echo", wspecTrue), ("once", wspecFalse)]

def wRowEcho : Conversation :=
  ⟨wr1.hash, "echo", JValue.jstr "old", canonPairs wr1.persistPairs⟩

def wRowOnce : Conversation := ⟨wr1.hash, "once", JValue.jstr "old2", []⟩

/-- Witness for C1: the continuing and terminal commands run against the
empty table (insert and no-op delete), and against tables already holding
a conversation row for the same context hash (overwrite and real
deletion). -/
theorem C1_conversation_lifecycle_witness :
    (([] : ConversationTable).find? (fun r => r.hash == wr1.hash) = none) ∧
    split "echo hello" = some ("echo", "hello") ∧
    alookup "echo" wregCmd = some wspecTrue ∧
    inject_integrations [] wspecTrue.requires = Except.ok () ∧
    wspecTrue.process "echo hello" wspecTrue.defaultData =
      ProcResult.ok (some true) (JValue.jstr "state1") ∧
    ((process_message wregCmd [] [] "echo hello" wr1).responses = [] ∧
      (process_message wregCmd [] [] "echo hello" wr1).table.find?
          (fun r => r.hash == wr1.hash) =
        some ⟨wr1.hash, "echo", jsort (JValue.jstr "state1"), canonPairs wr1.persistPairs⟩ ∧
      (∀ m2 cdata2, cdata2.hash = wr1.hash →
        get_command wregCmd (process_message wregCmd [] [] "echo hello" wr1).table m2 cdata2 =
          Except.ok ("echo", wspecTrue, jsort (JValue.jstr "state1"),
            cdata2.update_from_persist_str (canonPairs wr1.persistPairs)))) ∧
    ((process_message wregCmd [] [] "once" wr1).responses = [] ∧
      (process_message wregCmd [] [] "once" wr1).table = [] ∧
      (process_message wregCmd [] [] "once" wr1).table.find?
          (fun r => r.hash == wr1.hash) = none) ∧
    (([wRowEcho].map Conversation.hash).Nodup ∧
      [wRowEcho].find? (fun r => r.hash == wr1.hash) = some wRowEcho ∧
      alookup wRowEcho.command_name wregCmd = some wspecTrue ∧
      wspecTrue.process "whatever text" wRowEcho.command_data =
        ProcResult.ok (some true) (JValue.jstr "state1") ∧
      (process_message wregCmd [] [wRowEcho] "whatever text" wr1).responses = [] ∧
      (process_message wregCmd [] [wRowEcho] "whatever text" wr1).table.find?
          (fun r => r.hash == wr1.hash) =
        some ⟨wRowEcho.hash, wRowEcho.command_name, jsort (JValue.jstr "state1"),
          canonPairs (wr1.update_from_persist_str wRowEcho.context_data).persistPairs⟩ ∧
      (∀ m2 cdata2, cdata2.hash = wr1.hash →
        get_command wregCmd
            (process_message wregCmd [] [wRowEcho] "whatever text" wr1).table m2 cdata2 =
          Except.ok (wRowEcho.command_name, wspecTrue, jsort (JValue.jstr "state1"),
            cdata2.update_from_persist_str
              (canonPairs (wr1.update_from_persist_str wRowEcho.context_data).persistPairs)))) ∧
    ([wRowOnce].find? (fun r => r.hash == wr1.hash) = some wRowOnce ∧
      alookup wRowOnce.command_name wregCmd = some wspecFalse ∧
      (process_message wregCmd [] [wRowOnce] "whatever text" wr1).responses = [] ∧
      (process_message wregCmd [] [wRowOnce] "whatever text" wr1).table.find?
          (fun r => r.hash == wr1.hash) = none) :=
  ⟨rfl, by decide, rfl, rfl, rfl,
    ((C1_conversation_lifecycle wregCmd [] [] "echo hello" wr1).1 "echo" "hello" wspecTrue (some true)
      (JValue.jstr "state1") rfl (by decide) rfl rfl rfl).1 rfl,
    ((C1_conversation_lifecycle wregCmd [] [] "once" wr1).1 "once" "" wspecFalse (some false)
      (JValue.jobj []) rfl (by decide) rfl rfl rfl).2 rfl,
    ⟨by simp, by simp [wRowEcho], rfl, rfl,
      ((C1_conversation_lifecycle wregCmd [] [wRowEcho] "whatever text" wr1).2 wRowEcho wspecTrue (some true)
        (JValue.jstr "state1") (by simp) (by decide) (by simp [wRowEcho]) rfl rfl rfl).1 rfl⟩,
    ⟨by simp [wRowOnce], rfl,
      ((C1_conversation_lifecycle wregCmd [] [wRowOnce] "whatever text" wr1).2 wRowOnce wspecFalse (some false)
        (JValue.jobj []) (by simp) (by decide) (by simp [wRowOnce]) rfl rfl rfl).2 rfl⟩⟩

def wspecBoom : CommandSpec :=
  ⟨JValue.jobj [], [], fun _ _ => ProcResult.exc "ValueError"⟩

def wregBoom : CommandRegistry := [("boom", wspecBoom)]

/-- Witness for C5: an unregistered command name and a raising process
call, both on the empty table. -/
theorem C5_error_containment_witness :
    (([] : ConversationTable).map Conversation.hash).Nodup ∧
    (∀ f ∈ wr1.fields, f.hashFlag → f.persistFlag = false) ∧
    get_command wregCmd [] "nosuch msg" wr1 =
      Except.error ("command not found: " ++ "nosuch") ∧
    (process_message wregCmd [] [] "nosuch msg" wr1 =
        ⟨delete_conversation [] wr1, [format_error ("command not found: " ++ "nosuch")]⟩ ∧
      (process_message wregCmd [] [] "nosuch msg" wr1).table.find?
        (fun row => row.hash == wr1.hash) = none) ∧
    wspecBoom.process "boom now" wspecBoom.defaultData = ProcResult.exc "ValueError" ∧
    (process_message wregBoom [] [] "boom now" wr1 =
        ⟨delete_conversation [] wr1, [format_error "ValueError"]⟩ ∧
      (process_message wregBoom [] [] "boom now" wr1).table.find?
        (fun row => row.hash == wr1.hash) = none) :=
  ⟨by decide, by decide, rfl,
    (C5_error_containment wregCmd [] [] "nosuch msg" wr1 (by decide) (by decide)).1
      ("command not found: " ++ "nosuch") rfl,
    rfl,
    (C5_error_containment wregBoom [] [] "boom now" wr1 (by decide) (by decide)).2.2
      "boom" wspecBoom wspecBoom.defaultData wr1 "ValueError" rfl rfl rfl⟩

end BotCore
